import Mathlib

/-!
Verification of the `mux` TCP relay (libev-based implementation).

This file gives a shallow embedding of the parts of the source that the
checked properties are about:

* the per-connection relay state machine of `src/relay.cpp`
  (`read_cb`, `write_cb`, backpressure, half-close bookkeeping);
* the acceptor's round-robin dispatch (`accept_cb`, `create_event_loop_pool`);
* `set_nonblocking` from `src/netutil.cpp`;
* `get_remote_addr` / `get_local_addr` (netutil header);
* CLI address parsing and tuple validation from `src/main.cpp`
  (`must_parse_addr`, `check_addr_tuple_valid`) together with models of the
  libc routines they call (`inet_pton`, `inet_ntop`, `std::stoi`).

Machine integers are modelled as `Nat`/`Int`; buffers as `List Nat` (byte
values); fallible operations return `Option`/`Except`.
-/

namespace Mux

/-! ## Relay state machine (src/relay.cpp, libev variant)

`TCPBufConn` carries `read_count`, `write_count`, `read_done`, `write_done`
and `buf` (`std::vector<char>`).  The underlying `TCPConn` has a read and a
write libev watcher (`enable_read` / `disable_read` start/stop the read
watcher, similarly for write), a context (`std::any`, here: whether the
shared-pointer cross reference to the peer is still set) and a socket
(`close`, `shutdown`).  We track all fields the callbacks touch. -/

/-- Size of the worker's reusable scratch read buffer:
`kReusableBufferSize = 1024 * 64`. -/
def kReusableBufferSize : Nat := 1024 * 64

/-- Backpressure threshold: `kMaxConnBufferSize = 1024 * 1024`. -/
def kMaxConnBufferSize : Nat := 1024 * 1024

/-- State of one `TCPBufConn` (one endpoint socket of a relay). -/
structure ConnSt where
  read_count : Nat
  write_count : Nat
  read_done : Bool
  write_done : Bool
  buf : List Nat
  /-- socket has been `close()`d -/
  closed : Bool
  /-- `shutdown(SHUT_RD)` has been issued -/
  shut_rd : Bool
  /-- `shutdown(SHUT_WR)` has been issued -/
  shut_wr : Bool
  /-- the read watcher is started (`enable_read`) -/
  read_enabled : Bool
  /-- the write watcher is started (`enable_write`) -/
  write_enabled : Bool
  /-- the context still holds the `shared_ptr` to the peer conn -/
  has_ctx : Bool
  deriving Repr, DecidableEq

/-- A conn as set up by `eventfd_read_cb` right after the relay is created:
fresh counters and flags, read watcher started, write watcher not started,
context set to the peer. -/
def initConn : ConnSt :=
  { read_count := 0, write_count := 0, read_done := false, write_done := false
    buf := [], closed := false, shut_rd := false, shut_wr := false
    read_enabled := true, write_enabled := false, has_ctx := true }

/-- Outcome of the `from->read(...)` call at the top of `read_cb`:
`-1` with the current `errno` transient (`EAGAIN`/`EINTR`) or not,
`0` (EOF), or `n > 0` bytes read into the scratch buffer.  `read_cb`
switches on the return value only and never inspects `errno` (except for
logging), so the callback result may not depend on `transient`. -/
inductive ReadRes where
  | rerr (transient : Bool)
  | reof
  | rdata (bytes : List Nat)
  deriving Repr, DecidableEq

/-- Outcome of the `to->write(...)` call at the top of `write_cb`:
`-1` with transient or permanent `errno`, or `n ≥ 0` bytes written. -/
inductive WriteRes where
  | werr (transient : Bool)
  | wok (n : Nat)
  deriving Repr, DecidableEq

/-- `read_cb` from src/relay.cpp (lines 56-100), as a function of the conn
the read event fired on (`f`, the code's `from`) and its context peer
(`t`, the code's `to`); returns the updated `(from, to)` pair.

```
case -1: from->close(); from->disable_read(); from->disable_write();
         from->set_context({}); to->close(); to->disable_read();
         to->disable_write(); to->set_context({}); break;
case 0:  from->shutdown(SHUT_RD); from->disable_read();
         from->read_done = true; to->enable_write(); break;
default: append scratch[0..n) to from->buf;
         if (from->buf.size() > kMaxConnBufferSize) from->disable_read();
         from->read_count += nread; to->enable_write(); break;
```
-/
def read_cb : ReadRes → ConnSt → ConnSt → ConnSt × ConnSt
  | .rerr _, f, t =>
      ({ f with closed := true, read_enabled := false, write_enabled := false
                has_ctx := false },
       { t with closed := true, read_enabled := false, write_enabled := false
                has_ctx := false })
  | .reof, f, t =>
      ({ f with shut_rd := true, read_enabled := false, read_done := true },
       { t with write_enabled := true })
  | .rdata bytes, f, t =>
      let buf' := f.buf ++ bytes
      ({ f with buf := buf'
                read_enabled := if buf'.length > kMaxConnBufferSize then false
                                else f.read_enabled
                read_count := f.read_count + bytes.length },
       { t with write_enabled := true })

/-- `write_cb` from src/relay.cpp (lines 102-155), as a function of the conn
the write event fired on (`t`, the code's `to`) and its context peer
(`f`, the code's `from`); returns the updated `(to, from)` pair.

```
if (nwrite < 0) { if (errno != EAGAIN) LOG_ERROR(...); return; }
to->write_count += nwrite;
from->buf.erase(begin, begin + nwrite);
if (from->buf.size() < kMaxConnBufferSize && !from->read_done)
  from->enable_read();
if (from->buf.empty()) {
  to->disable_write();
  if (from->read_done) { to->shutdown(SHUT_WR); to->write_done = true; }
}
if (from->read_done && from->write_done) from->close();
if (to->read_done && to->write_done) to->close();
if (from->read_done && from->write_done && to->read_done && to->write_done)
  { from->set_context({}); to->set_context({}); }
```
-/
def write_cb : WriteRes → ConnSt → ConnSt → ConnSt × ConnSt
  | .werr _, t, f => (t, f)
  | .wok n, t, f =>
      let t1 := { t with write_count := t.write_count + n }
      let f1 := { f with buf := f.buf.drop n }
      let f2 := if f1.buf.length < kMaxConnBufferSize && !f1.read_done then
                  { f1 with read_enabled := true }
                else f1
      let t2 := if f2.buf.isEmpty then
                  let t' := { t1 with write_enabled := false }
                  if f2.read_done then
                    { t' with shut_wr := true, write_done := true }
                  else t'
                else t1
      let f3 := if f2.read_done && f2.write_done then { f2 with closed := true }
                else f2
      let t3 := if t2.read_done && t2.write_done then { t2 with closed := true }
                else t2
      if f3.read_done && f3.write_done && t3.read_done && t3.write_done then
        ({ t3 with has_ctx := false }, { f3 with has_ctx := false })
      else (t3, f3)

/-- A whole relay: the two `TCPBufConn`s created in `eventfd_read_cb`
(`a` = client conn, `b` = server conn); each is the other's context. -/
structure RelaySt where
  a : ConnSt
  b : ConnSt
  deriving Repr, DecidableEq

/-- Relay state right after `eventfd_read_cb` created it:
both conns fresh, read enabled, write disabled, contexts set. -/
def initRelay : RelaySt := ⟨initConn, initConn⟩

/-- The conn a watcher event fired on (`true` = conn `a`). -/
def RelaySt.sel (s : RelaySt) (onA : Bool) : ConnSt := if onA then s.a else s.b

/-- The context peer of the conn selected by `onA`. -/
def RelaySt.peer (s : RelaySt) (onA : Bool) : ConnSt := if onA then s.b else s.a

/-- Deliver a read event (result `r`) to the conn selected by `onA`. -/
def applyRead (s : RelaySt) (onA : Bool) (r : ReadRes) : RelaySt :=
  if onA then
    let p := read_cb r s.a s.b
    ⟨p.1, p.2⟩
  else
    let p := read_cb r s.b s.a
    ⟨p.2, p.1⟩

/-- Deliver a write event (result `wr`) to the conn selected by `onA`. -/
def applyWrite (s : RelaySt) (onA : Bool) (wr : WriteRes) : RelaySt :=
  if onA then
    let p := write_cb wr s.a s.b
    ⟨p.1, p.2⟩
  else
    let p := write_cb wr s.b s.a
    ⟨p.2, p.1⟩

/-- Side conditions under which the reactor can deliver a given read result:
`read(fd, scratch, capacity)` returns at most the scratch size
(`kReusableBufferSize`), and the `default:` branch means a strictly
positive return. -/
def ReadOk : ReadRes → Prop
  | .rerr _ => True
  | .reof => True
  | .rdata bytes => bytes ≠ [] ∧ bytes.length ≤ kReusableBufferSize

/-- Side condition for a write result: `write(fd, buf, size)` returns at
most `size` (the length of the peer's pending buffer). -/
def WriteOk (s : RelaySt) (onA : Bool) : WriteRes → Prop
  | .werr _ => True
  | .wok n => n ≤ (s.peer onA).buf.length

/-- Whether a read result is the error (`-1`) case. -/
def ReadRes.isErr : ReadRes → Bool
  | .rerr _ => true
  | _ => false

/-- Relay states reachable from the freshly created relay by event
deliveries.  libev only fires a watcher that is started, so a read
(resp. write) event requires `read_enabled` (resp. `write_enabled`) on the
conn it fires on.  With `allowErr = false` only executions in which no
read ever fails are considered; `allowErr = true` places no restriction. -/
inductive Reach : Bool → RelaySt → Prop where
  | init (allowErr : Bool) : Reach allowErr initRelay
  | read (allowErr : Bool) (s : RelaySt) (onA : Bool) (r : ReadRes) :
      Reach allowErr s → (s.sel onA).read_enabled = true → ReadOk r →
      (allowErr = false → r.isErr = false) →
      Reach allowErr (applyRead s onA r)
  | write (allowErr : Bool) (s : RelaySt) (onA : Bool) (wr : WriteRes) :
      Reach allowErr s → (s.sel onA).write_enabled = true → WriteOk s onA wr →
      Reach allowErr (applyWrite s onA wr)

/-! ### Characterization of `write_cb` on a successful write

`write_cb` threads four intermediate conn values (`t1`, `f1`, `f2`, `t2`,
`f3`, `t3`); the following lemma flattens that sequencing into one explicit
update of each field, proved by exhaustive case analysis. -/

theorem write_cb_wok_spec (t f : ConnSt) (n : Nat) :
    write_cb (.wok n) t f =
      (let wd' := (f.buf.drop n).isEmpty && f.read_done || t.write_done
       let call := (f.read_done && f.write_done) && (t.read_done && wd')
       ({ t with
          write_count := t.write_count + n
          write_enabled := if (f.buf.drop n).isEmpty then false else t.write_enabled
          shut_wr := (f.buf.drop n).isEmpty && f.read_done || t.shut_wr
          write_done := wd'
          closed := t.read_done && wd' || t.closed
          has_ctx := !call && t.has_ctx },
        { f with
          buf := f.buf.drop n
          read_enabled :=
            decide ((f.buf.drop n).length < kMaxConnBufferSize) && !f.read_done
              || f.read_enabled
          closed := f.read_done && f.write_done || f.closed
          has_ctx := !call && f.has_ctx })) := by
  obtain ⟨trc, twc, trd, twd, tbuf, tcl, tsrd, tswr, tren, twen, tctx⟩ := t
  obtain ⟨frc, fwc, frd, fwd, fbuf, fcl, fsrd, fswr, fren, fwen, fctx⟩ := f
  simp only [write_cb]
  by_cases hc1 : (fbuf.length - n < kMaxConnBufferSize) <;>
    by_cases hc2 : ((fbuf.drop n).isEmpty = true) <;>
      cases frd <;> cases fwd <;> cases trd <;> cases twd <;>
        simp [hc1, hc2]

theorem wok_to_write_count (t f : ConnSt) (n : Nat) :
    (write_cb (.wok n) t f).1.write_count = t.write_count + n := by
  rw [write_cb_wok_spec]

theorem wok_to_buf (t f : ConnSt) (n : Nat) :
    (write_cb (.wok n) t f).1.buf = t.buf := by
  rw [write_cb_wok_spec]

theorem wok_to_read_count (t f : ConnSt) (n : Nat) :
    (write_cb (.wok n) t f).1.read_count = t.read_count := by
  rw [write_cb_wok_spec]

theorem wok_to_read_enabled (t f : ConnSt) (n : Nat) :
    (write_cb (.wok n) t f).1.read_enabled = t.read_enabled := by
  rw [write_cb_wok_spec]

theorem wok_to_read_done (t f : ConnSt) (n : Nat) :
    (write_cb (.wok n) t f).1.read_done = t.read_done := by
  rw [write_cb_wok_spec]

theorem wok_to_write_done (t f : ConnSt) (n : Nat) :
    (write_cb (.wok n) t f).1.write_done =
      ((f.buf.drop n).isEmpty && f.read_done || t.write_done) := by
  rw [write_cb_wok_spec]

theorem wok_to_closed (t f : ConnSt) (n : Nat) :
    (write_cb (.wok n) t f).1.closed =
      (t.read_done && ((f.buf.drop n).isEmpty && f.read_done || t.write_done)
        || t.closed) := by
  rw [write_cb_wok_spec]

theorem wok_to_has_ctx (t f : ConnSt) (n : Nat) :
    (write_cb (.wok n) t f).1.has_ctx =
      (!((f.read_done && f.write_done) &&
          (t.read_done && ((f.buf.drop n).isEmpty && f.read_done || t.write_done)))
        && t.has_ctx) := by
  rw [write_cb_wok_spec]

theorem wok_from_buf (t f : ConnSt) (n : Nat) :
    (write_cb (.wok n) t f).2.buf = f.buf.drop n := by
  rw [write_cb_wok_spec]

theorem wok_from_read_count (t f : ConnSt) (n : Nat) :
    (write_cb (.wok n) t f).2.read_count = f.read_count := by
  rw [write_cb_wok_spec]

theorem wok_from_write_count (t f : ConnSt) (n : Nat) :
    (write_cb (.wok n) t f).2.write_count = f.write_count := by
  rw [write_cb_wok_spec]

theorem wok_from_read_enabled (t f : ConnSt) (n : Nat) :
    (write_cb (.wok n) t f).2.read_enabled =
      (decide ((f.buf.drop n).length < kMaxConnBufferSize) && !f.read_done
        || f.read_enabled) := by
  rw [write_cb_wok_spec]

theorem wok_from_read_done (t f : ConnSt) (n : Nat) :
    (write_cb (.wok n) t f).2.read_done = f.read_done := by
  rw [write_cb_wok_spec]

theorem wok_from_write_done (t f : ConnSt) (n : Nat) :
    (write_cb (.wok n) t f).2.write_done = f.write_done := by
  rw [write_cb_wok_spec]

theorem wok_from_closed (t f : ConnSt) (n : Nat) :
    (write_cb (.wok n) t f).2.closed =
      (f.read_done && f.write_done || f.closed) := by
  rw [write_cb_wok_spec]

theorem wok_from_has_ctx (t f : ConnSt) (n : Nat) :
    (write_cb (.wok n) t f).2.has_ctx =
      (!((f.read_done && f.write_done) &&
          (t.read_done && ((f.buf.drop n).isEmpty && f.read_done || t.write_done)))
        && f.has_ctx) := by
  rw [write_cb_wok_spec]

/-! ### Invariants of the relay state machine -/

/-- Per-direction invariant, for the direction that reads from `x` and
writes to `y`: backpressure keeps the pending buffer at `kMaxConnBufferSize`
plus one scratch read, reading is enabled only at or below the threshold,
and the byte accounting balances. -/
def DirInv (x y : ConnSt) : Prop :=
  (x.read_enabled = true → x.buf.length ≤ kMaxConnBufferSize) ∧
  x.buf.length ≤ kMaxConnBufferSize + kReusableBufferSize ∧
  x.read_count = y.write_count + x.buf.length

/-- Both directions of a relay satisfy `DirInv`. -/
def Inv (s : RelaySt) : Prop := DirInv s.a s.b ∧ DirInv s.b s.a

/-- Retirement invariant on a pair of conns: a closed socket's own conn has
both done flags set, and a cleared context implies all four done flags. -/
def ClosePairInv (x y : ConnSt) : Prop :=
  (x.closed = true → x.read_done = true ∧ x.write_done = true) ∧
  (y.closed = true → y.read_done = true ∧ y.write_done = true) ∧
  ((x.has_ctx = false ∨ y.has_ctx = false) →
    x.read_done = true ∧ x.write_done = true ∧
    y.read_done = true ∧ y.write_done = true)

theorem bool_not_eq_false {b : Bool} (h : (!b) = false) : b = true := by
  cases hb : b
  · rw [hb] at h; cases h
  · rfl

theorem read_cb_dirInv (f t : ConnSt) (r : ReadRes)
    (hen : f.read_enabled = true) (hok : ReadOk r)
    (h1 : DirInv f t) (h2 : DirInv t f) :
    DirInv (read_cb r f t).1 (read_cb r f t).2 ∧
    DirInv (read_cb r f t).2 (read_cb r f t).1 := by
  obtain ⟨h1a, h1b, h1c⟩ := h1
  obtain ⟨h2a, h2b, h2c⟩ := h2
  cases r with
  | rerr transient =>
    refine ⟨⟨?_, ?_, ?_⟩, ⟨?_, ?_, ?_⟩⟩ <;> simp [read_cb, h1b, h1c, h2b, h2c]
  | reof =>
    refine ⟨⟨?_, ?_, ?_⟩, ⟨?_, ?_, ?_⟩⟩ <;> simp [read_cb, h1b, h1c, h2b, h2c]
    intro h; exact h2a h
  | rdata bytes =>
    obtain ⟨hne, hlen⟩ := hok
    have hfb : f.buf.length ≤ kMaxConnBufferSize := h1a hen
    refine ⟨⟨?_, ?_, ?_⟩, ⟨?_, ?_, ?_⟩⟩ <;>
      simp only [read_cb, List.length_append]
    · split
      · intro h; cases h
      · intro _; omega
    · omega
    · omega
    · exact h2a
    · exact h2b
    · exact h2c

theorem write_cb_dirInv (t f : ConnSt) (wr : WriteRes)
    (hok : ∀ n, wr = .wok n → n ≤ f.buf.length)
    (h1 : DirInv f t) (h2 : DirInv t f) :
    DirInv (write_cb wr t f).2 (write_cb wr t f).1 ∧
    DirInv (write_cb wr t f).1 (write_cb wr t f).2 := by
  obtain ⟨h1a, h1b, h1c⟩ := h1
  obtain ⟨h2a, h2b, h2c⟩ := h2
  cases wr with
  | werr transient => exact ⟨⟨h1a, h1b, h1c⟩, ⟨h2a, h2b, h2c⟩⟩
  | wok n =>
    have hn : n ≤ f.buf.length := hok n rfl
    constructor
    · refine ⟨?_, ?_, ?_⟩
      · rw [wok_from_read_enabled, wok_from_buf]
        intro h
        rcases Bool.or_eq_true_iff.mp h with h' | h'
        · have := of_decide_eq_true (Bool.and_eq_true_iff.mp h').1
          simpa [List.length_drop] using Nat.le_of_lt this
        · have := h1a h'
          simp only [List.length_drop]
          omega
      · rw [wok_from_buf]
        simp only [List.length_drop]
        omega
      · rw [wok_from_read_count, wok_from_buf, wok_to_write_count]
        simp only [List.length_drop]
        omega
    · refine ⟨?_, ?_, ?_⟩
      · rw [wok_to_read_enabled, wok_to_buf]; exact h2a
      · rw [wok_to_buf]; exact h2b
      · rw [wok_to_read_count, wok_to_buf, wok_from_write_count]; exact h2c

theorem read_cb_closePairInv (f t : ConnSt) (r : ReadRes)
    (hNoErr : r.isErr = false)
    (h : ClosePairInv f t) :
    ClosePairInv (read_cb r f t).1 (read_cb r f t).2 := by
  obtain ⟨ha, hb, hc⟩ := h
  cases r with
  | rerr transient => simp [ReadRes.isErr] at hNoErr
  | reof =>
    refine ⟨?_, ?_, ?_⟩
    · intro h; exact ⟨rfl, (ha h).2⟩
    · intro h; exact hb h
    · intro h; exact ⟨rfl, (hc h).2.1, (hc h).2.2.1, (hc h).2.2.2⟩
  | rdata bytes =>
    refine ⟨?_, ?_, ?_⟩
    · intro h; exact ha h
    · intro h; exact hb h
    · intro h; exact hc h

theorem write_cb_closePairInv (t f : ConnSt) (wr : WriteRes)
    (h : ClosePairInv f t) :
    ClosePairInv (write_cb wr t f).2 (write_cb wr t f).1 := by
  obtain ⟨ha, hb, hc⟩ := h
  cases wr with
  | werr transient => exact ⟨ha, hb, hc⟩
  | wok n =>
    refine ⟨?_, ?_, ?_⟩
    · rw [wok_from_closed, wok_from_read_done, wok_from_write_done]
      intro h
      rcases Bool.or_eq_true_iff.mp h with h' | h'
      · exact ⟨(Bool.and_eq_true_iff.mp h').1, (Bool.and_eq_true_iff.mp h').2⟩
      · exact ha h'
    · rw [wok_to_closed, wok_to_read_done, wok_to_write_done]
      intro h
      rcases Bool.or_eq_true_iff.mp h with h' | h'
      · exact ⟨(Bool.and_eq_true_iff.mp h').1, (Bool.and_eq_true_iff.mp h').2⟩
      · obtain ⟨h1, h2⟩ := hb h'
        exact ⟨h1, by rw [h2, Bool.or_true]⟩
    · rw [wok_from_has_ctx, wok_to_has_ctx,
          wok_from_read_done, wok_from_write_done,
          wok_to_read_done, wok_to_write_done]
      intro h
      have hcall : ((f.read_done && f.write_done) &&
          (t.read_done && ((f.buf.drop n).isEmpty && f.read_done || t.write_done))) = true
          ∨ (f.has_ctx = false ∨ t.has_ctx = false) := by
        rcases h with h' | h'
        · rcases Bool.and_eq_false_iff.mp h' with h'' | h''
          · exact Or.inl (bool_not_eq_false h'')
          · exact Or.inr (Or.inl h'')
        · rcases Bool.and_eq_false_iff.mp h' with h'' | h''
          · exact Or.inl (bool_not_eq_false h'')
          · exact Or.inr (Or.inr h'')
      rcases hcall with h' | h'
      · obtain ⟨hfw, htw⟩ := Bool.and_eq_true_iff.mp h'
        obtain ⟨hf1, hf2⟩ := Bool.and_eq_true_iff.mp hfw
        obtain ⟨ht1, ht2⟩ := Bool.and_eq_true_iff.mp htw
        rcases Bool.or_eq_true_iff.mp ht2 with hx | hx
        · exact ⟨hf1, hf2, ht1, by rw [hx, Bool.true_or]⟩
        · exact ⟨hf1, hf2, ht1, by rw [hx, Bool.or_true]⟩
      · obtain ⟨h1, h2, h3, h4⟩ := hc h'
        exact ⟨h1, h2, h3, by rw [h4, Bool.or_true]⟩

/-- Swapping the two conns preserves `ClosePairInv`. -/
theorem closePairInv_swap (x y : ConnSt) (h : ClosePairInv x y) :
    ClosePairInv y x := by
  obtain ⟨ha, hb, hc⟩ := h
  refine ⟨hb, ha, ?_⟩
  intro h'
  have := hc h'.symm
  exact ⟨this.2.2.1, this.2.2.2, this.1, this.2.1⟩

/-- Every reachable relay state (read errors allowed or not) satisfies the
buffer-accounting and backpressure invariant. -/
theorem reach_inv (e : Bool) (s : RelaySt) (h : Reach e s) : Inv s := by
  induction h with
  | init =>
    refine ⟨⟨?_, ?_, ?_⟩, ⟨?_, ?_, ?_⟩⟩ <;> simp [initRelay, initConn]
  | read s onA r hr hen hok hne ih =>
    cases onA with
    | true =>
      have := read_cb_dirInv s.a s.b r (by simpa [RelaySt.sel] using hen) hok ih.1 ih.2
      exact ⟨by simpa [applyRead] using this.1, by simpa [applyRead] using this.2⟩
    | false =>
      have := read_cb_dirInv s.b s.a r (by simpa [RelaySt.sel] using hen) hok ih.2 ih.1
      exact ⟨by simpa [applyRead] using this.2, by simpa [applyRead] using this.1⟩
  | write s onA wr hr hen hok ih =>
    cases onA with
    | true =>
      have := write_cb_dirInv s.a s.b wr
        (by intro n hn; subst hn; simpa [WriteOk, RelaySt.peer] using hok) ih.2 ih.1
      exact ⟨by simpa [applyWrite] using this.2, by simpa [applyWrite] using this.1⟩
    | false =>
      have := write_cb_dirInv s.b s.a wr
        (by intro n hn; subst hn; simpa [WriteOk, RelaySt.peer] using hok) ih.1 ih.2
      exact ⟨by simpa [applyWrite] using this.1, by simpa [applyWrite] using this.2⟩

/-- Every relay state reachable without read errors satisfies the
retirement invariant. -/
theorem reach_closeInv (s : RelaySt) (h : Reach false s) :
    ClosePairInv s.a s.b := by
  suffices H : ∀ (e : Bool) (s : RelaySt), Reach e s → e = false → ClosePairInv s.a s.b from
    H false s h rfl
  intro e s h
  induction h with
  | init =>
    intro _
    refine ⟨?_, ?_, ?_⟩ <;> simp [initRelay, initConn]
  | read s onA r hr hen hok hne ih =>
    intro he
    have hnoerr : r.isErr = false := hne he
    cases onA with
    | true =>
      have := read_cb_closePairInv s.a s.b r hnoerr (ih he)
      simpa [applyRead] using this
    | false =>
      have := read_cb_closePairInv s.b s.a r hnoerr (closePairInv_swap _ _ (ih he))
      exact closePairInv_swap _ _ (by simpa [applyRead] using this)
  | write s onA wr hr hen hok ih =>
    intro he
    cases onA with
    | true =>
      have := write_cb_closePairInv s.a s.b wr (closePairInv_swap _ _ (ih he))
      exact closePairInv_swap _ _ (by simpa [applyWrite] using this)
    | false =>
      have := write_cb_closePairInv s.b s.a wr (ih he)
      exact (by simpa [applyWrite] using this)

/-! ### Claim theorems for the relay state machine -/

/-- C1 counterexample: at a freshly created relay the read watcher is
active, so a `read` returning `-1` with `errno = EAGAIN` (transient) can be
delivered; the claim says the callback then returns leaving the relay state
unchanged, but in the code the `case -1:` branch closes both sockets,
disables all callbacks and clears both contexts without ever looking at
`errno`. -/
theorem C1_transient_read_error_counterexample :
    (initRelay.sel true).read_enabled = true ∧
    decide ((read_cb (.rerr true) initConn initConn).1 = initConn) = false ∧
    (read_cb (.rerr true) initConn initConn).1.closed = true ∧
    (read_cb (.rerr true) initConn initConn).2.closed = true := by
  decide

/-- C1 (amended): when a read on the source socket returns `-1`, the read
callback tears the whole relay down regardless of whether `errno` is
transient (`EAGAIN`/`EINTR`) or permanent: the result does not depend on
the errno class, both sockets are closed, all four callbacks are disabled,
and both contexts are cleared.  The relay state is never left unchanged on
a read error. -/
theorem C1_read_error_always_tears_down (tr : Bool) (f t : ConnSt) :
    read_cb (.rerr tr) f t = read_cb (.rerr false) f t ∧
    (read_cb (.rerr tr) f t).1.closed = true ∧
    (read_cb (.rerr tr) f t).2.closed = true ∧
    (read_cb (.rerr tr) f t).1.read_enabled = false ∧
    (read_cb (.rerr tr) f t).1.write_enabled = false ∧
    (read_cb (.rerr tr) f t).2.read_enabled = false ∧
    (read_cb (.rerr tr) f t).2.write_enabled = false ∧
    (read_cb (.rerr tr) f t).1.has_ctx = false ∧
    (read_cb (.rerr tr) f t).2.has_ctx = false :=
  ⟨rfl, rfl, rfl, rfl, rfl, rfl, rfl, rfl, rfl⟩

/-- C2 counterexample: a reachable relay state with pending data whose
destination write watcher is active; a write failing with a permanent
(non-`EAGAIN`) error leaves the state exactly unchanged — no socket is
closed — whereas the claim says the whole relay is torn down. -/
theorem C2_permanent_write_error_counterexample :
    (Reach true (applyRead initRelay true (.rdata [104, 105])) ∧
     ((applyRead initRelay true (.rdata [104, 105])).sel false).write_enabled
        = true) ∧
    applyWrite (applyRead initRelay true (.rdata [104, 105])) false
        (.werr false)
      = applyRead initRelay true (.rdata [104, 105]) ∧
    (applyRead initRelay true (.rdata [104, 105])).a.closed = false ∧
    (applyRead initRelay true (.rdata [104, 105])).b.closed = false := by
  refine ⟨⟨?_, by decide⟩, by decide, by decide, by decide⟩
  exact Reach.read true initRelay true (.rdata [104, 105]) (.init true)
    (by decide) (by constructor <;> decide) (by intro h; cases h)

/-- C2 (amended): when a write to the destination socket fails — with a
permanent error just as with a transient one — the write callback only
logs (for `errno != EAGAIN`) and returns: the relay state is left exactly
unchanged, no socket is closed and no callback is disabled.  Teardown on a
permanent write error never happens. -/
theorem C2_write_error_never_tears_down (tr : Bool) (t f : ConnSt) :
    write_cb (.werr tr) t f = (t, f) := rfl

/-- C3: at every reachable relay state each direction's pending buffer
holds at most 1 MiB + 64 KiB, and the read watcher of a direction is
active only while its buffer is at or below 1 MiB.  Moreover the read
callback disables reading whenever the buffer strictly exceeds 1 MiB after
appending, and the write callback re-enables a disabled read only when the
buffer is strictly below 1 MiB and the source has not reached EOF. -/
theorem C3_backpressure_bound (e : Bool) (s : RelaySt) (h : Reach e s) :
    (s.a.buf.length ≤ kMaxConnBufferSize + kReusableBufferSize ∧
     s.b.buf.length ≤ kMaxConnBufferSize + kReusableBufferSize) ∧
    ((s.a.read_enabled = true → s.a.buf.length ≤ kMaxConnBufferSize) ∧
     (s.b.read_enabled = true → s.b.buf.length ≤ kMaxConnBufferSize)) ∧
    (∀ (f t : ConnSt) (bytes : List Nat),
      (read_cb (.rdata bytes) f t).1.buf.length > kMaxConnBufferSize →
      (read_cb (.rdata bytes) f t).1.read_enabled = false) ∧
    (∀ (t f : ConnSt) (n : Nat), f.read_enabled = false →
      (write_cb (.wok n) t f).2.read_enabled = true →
      (write_cb (.wok n) t f).2.buf.length < kMaxConnBufferSize ∧
      (write_cb (.wok n) t f).2.read_done = false) := by
  obtain ⟨⟨h1a, h1b, h1c⟩, ⟨h2a, h2b, h2c⟩⟩ := reach_inv e s h
  refine ⟨⟨h1b, h2b⟩, ⟨h1a, h2a⟩, ?_, ?_⟩
  · intro f t bytes hlen
    simp only [read_cb] at hlen ⊢
    split
    · rfl
    · omega
  · intro t f n hdis hen
    rw [wok_from_read_enabled, hdis, Bool.or_false] at hen
    obtain ⟨hlt, hrd⟩ := Bool.and_eq_true_iff.mp hen
    rw [wok_from_buf, wok_from_read_done]
    exact ⟨of_decide_eq_true hlt, by
      cases hd : f.read_done
      · rfl
      · rw [hd] at hrd; cases hrd⟩

/-- Witness for C3 at a concrete reachable state: after one 2-byte read
the bound holds. -/
theorem C3_backpressure_bound_witness :
    (applyRead initRelay true (.rdata [1, 2])).a.buf.length ≤
      kMaxConnBufferSize + kReusableBufferSize ∧
    ((applyRead initRelay true (.rdata [1, 2])).a.read_enabled = true →
      (applyRead initRelay true (.rdata [1, 2])).a.buf.length ≤
        kMaxConnBufferSize) := by
  have hreach : Reach true (applyRead initRelay true (.rdata [1, 2])) :=
    Reach.read true initRelay true (.rdata [1, 2]) (.init true)
      (by decide) (by constructor <;> decide) (by intro h; cases h)
  have h := C3_backpressure_bound true _ hreach
  exact ⟨h.1.1, h.2.1.1⟩

/-- C4: in every execution without read errors (the only permanent-error
teardown path), each direction's `read_count` equals the opposite conn's
`write_count` plus the pending buffer length; in particular once the
buffer has fully drained the two counters agree, so an orderly close
loses no bytes. -/
theorem C4_byte_conservation (s : RelaySt) (h : Reach false s) :
    (s.a.read_count = s.b.write_count + s.a.buf.length ∧
     s.b.read_count = s.a.write_count + s.b.buf.length) ∧
    ((s.a.buf = [] → s.a.read_count = s.b.write_count) ∧
     (s.b.buf = [] → s.b.read_count = s.a.write_count)) := by
  obtain ⟨⟨_, _, h1c⟩, ⟨_, _, h2c⟩⟩ := reach_inv false s h
  refine ⟨⟨h1c, h2c⟩, ⟨?_, ?_⟩⟩
  · intro he; rw [h1c, he]; rfl
  · intro he; rw [h2c, he]; rfl

/-- Witness for C4 on a concrete error-free trace: read 2 bytes from the
client conn, write both to the server conn; counters balance. -/
theorem C4_byte_conservation_witness :
    (applyWrite (applyRead initRelay true (.rdata [9, 9])) false
        (.wok 2)).a.read_count =
      (applyWrite (applyRead initRelay true (.rdata [9, 9])) false
          (.wok 2)).b.write_count +
        (applyWrite (applyRead initRelay true (.rdata [9, 9])) false
            (.wok 2)).a.buf.length := by
  have h1 : Reach false (applyRead initRelay true (.rdata [9, 9])) :=
    Reach.read false initRelay true (.rdata [9, 9]) (.init false)
      (by decide) (by constructor <;> decide) (by intro _; rfl)
  have h2 : Reach false (applyWrite (applyRead initRelay true (.rdata [9, 9]))
      false (.wok 2)) :=
    Reach.write false _ false (.wok 2) h1 (by decide) (by simp only [WriteOk]; decide)
  exact (C4_byte_conservation _ h2).1.1

/-- C5 counterexample.  First conjunct: one read error from the initial
state closes socket `a` (and clears both contexts) while all four done
flags are still false.  Second conjunct: an error-free orderly trace
(EOF on both sides, then the server-side drain) reaches a state where the
server socket `b` is already closed while the client half still has
`write_done = false` — so sockets are not closed only at full retirement
even in error-free runs. -/
theorem C5_retirement_counterexample :
    ((applyRead initRelay true (.rerr false)).a.closed = true ∧
     (applyRead initRelay true (.rerr false)).a.read_done = false ∧
     (applyRead initRelay true (.rerr false)).a.has_ctx = false ∧
     Reach true (applyRead initRelay true (.rerr false))) ∧
    ((applyWrite (applyRead (applyRead initRelay true .reof) false .reof)
        false (.wok 0)).b.closed = true ∧
     (applyWrite (applyRead (applyRead initRelay true .reof) false .reof)
        false (.wok 0)).a.write_done = false ∧
     Reach false (applyWrite (applyRead (applyRead initRelay true .reof)
        false .reof) false (.wok 0))) := by
  refine ⟨⟨by decide, by decide, by decide, ?_⟩, ⟨by decide, by decide, ?_⟩⟩
  · exact Reach.read true initRelay true (.rerr false) (.init true)
      (by decide) trivial (by intro h; cases h)
  · have h1 : Reach false (applyRead initRelay true .reof) :=
      Reach.read false initRelay true .reof (.init false)
        (by decide) trivial (by intro _; rfl)
    have h2 : Reach false (applyRead (applyRead initRelay true .reof)
        false .reof) :=
      Reach.read false _ false .reof h1 (by decide) trivial (by intro _; rfl)
    exact Reach.write false _ false (.wok 0) h2 (by decide) (by simp only [WriteOk]; decide)

/-- C5 (amended): in executions without read errors, a relay socket is
closed only once its own conn has both `read_done` and `write_done`
(the other conn's flags may still be false at that moment), and the relay's
cross references (the contexts holding the shared pointers) are released
only when all four done flags hold.  On a read error, both sockets are
closed and both contexts released immediately, regardless of the done
flags. -/
theorem C5_retirement_amended (s : RelaySt) (h : Reach false s) :
    ((s.a.closed = true → s.a.read_done = true ∧ s.a.write_done = true) ∧
     (s.b.closed = true → s.b.read_done = true ∧ s.b.write_done = true)) ∧
    ((s.a.has_ctx = false ∨ s.b.has_ctx = false) →
      s.a.read_done = true ∧ s.a.write_done = true ∧
      s.b.read_done = true ∧ s.b.write_done = true) ∧
    (∀ (tr : Bool) (f t : ConnSt),
      (read_cb (.rerr tr) f t).1.closed = true ∧
      (read_cb (.rerr tr) f t).2.closed = true ∧
      (read_cb (.rerr tr) f t).1.has_ctx = false ∧
      (read_cb (.rerr tr) f t).2.has_ctx = false) := by
  obtain ⟨ha, hb, hc⟩ := reach_closeInv s h
  exact ⟨⟨ha, hb⟩, hc, fun tr f t => ⟨rfl, rfl, rfl, rfl⟩⟩

/-- Witness for C5 at the initial relay state. -/
theorem C5_retirement_amended_witness :
    (initRelay.a.closed = true →
      initRelay.a.read_done = true ∧ initRelay.a.write_done = true) ∧
    (read_cb (.rerr true) initConn initConn).1.closed = true := by
  have h := C5_retirement_amended initRelay (.init false)
  exact ⟨h.1.1, (h.2.2 true initConn initConn).1⟩

/-! ## Acceptor dispatch (src/relay.cpp, `accept_cb` and
`create_event_loop_pool`)

`create_event_loop_pool(n)` builds `nloop = max(n, 1)` event loops and a
pool whose `curr_loop_idx` starts at `0`.  On each accepted connection
`accept_cb` runs (src/relay.cpp:255-259):

```
p->curr_loop_idx++;
if (p->curr_loop_idx % p->loops.size() == 0)
  p->curr_loop_idx++;
const auto &el = p->loops[p->curr_loop_idx % p->loops.size()];
```

`curr_loop_idx` is a `size_t`; it is modelled as `Nat` (its wrap at
`2 ^ 64` is not in the scope of any claim). -/

/-- Pool size chosen by `create_event_loop_pool`: `max(n, 1)`. -/
def poolSize (n : Nat) : Nat := max n 1

/-- One dispatch step of `accept_cb` on a pool of `nloops` workers with
round-robin cursor `idx`: returns the new cursor and the index of the
worker the connection is handed to. -/
def accept_dispatch (nloops idx : Nat) : Nat × Nat :=
  let i := idx + 1
  let i2 := if i % nloops = 0 then i + 1 else i
  (i2, i2 % nloops)

/-- Cursor value after `k` dispatches, starting from the initial cursor `0`
set up by `create_event_loop_pool`. -/
def cursorAfter (nloops : Nat) : Nat → Nat
  | 0 => 0
  | k + 1 => (accept_dispatch nloops (cursorAfter nloops k)).1

/-- Worker chosen for the `(k+1)`-th accepted connection. -/
def targetOf (nloops k : Nat) : Nat :=
  (accept_dispatch nloops (cursorAfter nloops k)).2

theorem cursor_mod (n : Nat) (hn : 2 ≤ n) :
    ∀ k, cursorAfter n (k + 1) % n = k % (n - 1) + 1 := by
  have h1 : (1 : Nat) % n = 1 := Nat.mod_eq_of_lt (by omega)
  intro k
  induction k with
  | zero =>
    show (accept_dispatch n (cursorAfter n 0)).1 % n = 0 % (n - 1) + 1
    simp only [cursorAfter, accept_dispatch, Nat.zero_add, Nat.zero_mod]
    rw [if_neg (by rw [h1]; omega), h1]
  | succ k ih =>
    have hmlt : k % (n - 1) < n - 1 := Nat.mod_lt _ (by omega)
    show (accept_dispatch n (cursorAfter n (k + 1))).1 % n
        = (k + 1) % (n - 1) + 1
    have hc1 : (cursorAfter n (k + 1) + 1) % n = (k % (n - 1) + 2) % n := by
      rw [← Nat.mod_add_mod, ih]
    have hk1 : (k + 1) % (n - 1) = (k % (n - 1) + 1) % (n - 1) :=
      (Nat.mod_add_mod k (n - 1) 1).symm
    by_cases hcase : k % (n - 1) + 2 = n
    · have hz : (cursorAfter n (k + 1) + 1) % n = 0 := by
        rw [hc1, hcase, Nat.mod_self]
      simp only [accept_dispatch]
      rw [if_pos hz]
      have : (cursorAfter n (k + 1) + 1 + 1) % n = 1 := by
        rw [← Nat.mod_add_mod, hz, Nat.zero_add, h1]
      rw [this, hk1]
      have : (k % (n - 1) + 1) % (n - 1) = 0 := by
        have : k % (n - 1) + 1 = n - 1 := by omega
        rw [this, Nat.mod_self]
      rw [this]
    · have hlt : k % (n - 1) + 2 < n := by omega
      have hz : (cursorAfter n (k + 1) + 1) % n = k % (n - 1) + 2 := by
        rw [hc1, Nat.mod_eq_of_lt hlt]
      simp only [accept_dispatch]
      rw [if_neg (by rw [hz]; omega), hz, hk1,
          Nat.mod_eq_of_lt (a := k % (n - 1) + 1) (by omega)]

theorem targetOf_eq (n : Nat) (hn : 2 ≤ n) (k : Nat) :
    targetOf n k = k % (n - 1) + 1 := by
  have h : targetOf n k = cursorAfter n (k + 1) % n := rfl
  rw [h]
  exact cursor_mod n hn k

/-- C6: for a pool of one worker every accepted connection goes to worker
`0`; for `n ≥ 2` workers, the `(k+1)`-th accepted connection goes to worker
`k % (n-1) + 1` — round-robin over workers `1..n-1`, never worker `0` (one
extra cursor advance whenever the candidate index would be `0`); the cursor
strictly increases at each dispatch, and the constructed pool always has at
least one worker. -/
theorem C6_dispatch_round_robin :
    (∀ k, targetOf 1 k = 0) ∧
    (∀ n k, 2 ≤ n → targetOf n k = k % (n - 1) + 1) ∧
    (∀ n k, 2 ≤ n → targetOf n k ≠ 0) ∧
    (∀ n k, cursorAfter n k < cursorAfter n (k + 1)) ∧
    (∀ n, 1 ≤ poolSize n) := by
  refine ⟨?_, ?_, ?_, ?_, ?_⟩
  · intro k
    show (accept_dispatch 1 (cursorAfter 1 k)).2 = 0
    simp [accept_dispatch, Nat.mod_one]
  · intro n k hn
    exact targetOf_eq n hn k
  · intro n k hn
    rw [targetOf_eq n hn k]
    omega
  · intro n k
    show cursorAfter n k < (accept_dispatch n (cursorAfter n k)).1
    simp only [accept_dispatch]
    split <;> omega
  · intro n
    simp [poolSize]

/-- Witness for C6: concrete pool of 3 workers; fifth dispatch goes to
worker `4 % 2 + 1 = 1`, not to worker `0`; single-worker pool dispatches
to worker `0`. -/
theorem C6_dispatch_round_robin_witness :
    targetOf 3 4 = 4 % 2 + 1 ∧ targetOf 3 4 ≠ 0 ∧ targetOf 1 7 = 0 ∧
    targetOf 3 4 = 1 :=
  ⟨C6_dispatch_round_robin.2.1 3 4 (by omega),
   C6_dispatch_round_robin.2.2.1 3 4 (by omega),
   C6_dispatch_round_robin.1 7, by decide⟩

/-! ## `set_nonblocking` (src/netutil.cpp lines 88-95)

```
int set_nonblocking(int fd) {
  int flags = ::fcntl(fd, F_GETFL, 0);
  if (flags < 0)
    return -1;
  if (flags & O_NONBLOCK)
    return 0;
  return ::fcntl(fd, F_SETFL, flags | O_NONBLOCK);
}
```

The fd is represented by its file-status flag word (a bitmask, `Nat`);
`getfl_fails` models `F_GETFL` returning `< 0` (in which case the fd's
flags are untouched).  `F_SETFL` itself is modelled as succeeding with
return value `0`.  Result: (flag word of the fd afterwards, return value,
whether an `F_SETFL` call was issued). -/

/-- `O_NONBLOCK` on Linux: `0o4000 = 2048 = 2 ^ 11`. -/
def O_NONBLOCK : Nat := 2048

def set_nonblocking (flags : Nat) (getfl_fails : Bool) : Nat × Int × Bool :=
  if getfl_fails then (flags, -1, false)
  else if flags &&& O_NONBLOCK ≠ 0 then (flags, 0, false)
  else (flags ||| O_NONBLOCK, 0, true)

theorem land_O_NONBLOCK_ne_zero (x : Nat) :
    x &&& O_NONBLOCK ≠ 0 ↔ x.testBit 11 = true := by
  have h : O_NONBLOCK = 2 ^ 11 := by decide
  rw [h, Nat.and_two_pow]
  cases hx : x.testBit 11 <;> simp

theorem testBit_lor_O_NONBLOCK (x i : Nat) (hi : i ≠ 11) :
    (x ||| O_NONBLOCK).testBit i = x.testBit i := by
  have h : O_NONBLOCK = 2 ^ 11 := by decide
  rw [h, Nat.testBit_lor, Nat.testBit_two_pow_of_ne (Ne.symm hi), Bool.or_false]

/-- C10: `set_nonblocking` is idempotent and frame-preserving.  If the
flags already contain `O_NONBLOCK` it returns `0` without issuing
`F_SETFL` and leaves the flags unchanged; a second application returns `0`,
issues no `F_SETFL`, and changes nothing; the result always has
`O_NONBLOCK` set (when `F_GETFL` succeeds); and every flag bit other than
`O_NONBLOCK` is preserved. -/
theorem C10_set_nonblocking_idempotent_frame :
    (∀ fl, fl &&& O_NONBLOCK ≠ 0 →
      set_nonblocking fl false = (fl, 0, false)) ∧
    (∀ fl,
      set_nonblocking (set_nonblocking fl false).1 false =
        ((set_nonblocking fl false).1, 0, false)) ∧
    (∀ fl, ((set_nonblocking fl false).1).testBit 11 = true ∨
      fl.testBit 11 = false ∧ (set_nonblocking fl false).1 = fl) ∧
    (∀ fl i, i ≠ 11 →
      ((set_nonblocking fl false).1).testBit i = fl.testBit i) := by
  have hset : ∀ fl, ((set_nonblocking fl false).1).testBit 11 = true := by
    intro fl
    by_cases h : fl &&& O_NONBLOCK ≠ 0
    · simp only [set_nonblocking, if_neg Bool.false_ne_true, if_pos h]
      exact (land_O_NONBLOCK_ne_zero fl).mp h
    · simp only [set_nonblocking, if_neg Bool.false_ne_true, if_neg h]
      have hob : O_NONBLOCK = 2 ^ 11 := by decide
      rw [hob, Nat.testBit_lor, Nat.testBit_two_pow_self, Bool.or_true]
  refine ⟨?_, ?_, ?_, ?_⟩
  · intro fl h
    simp only [set_nonblocking, if_neg Bool.false_ne_true, if_pos h]
  · intro fl
    have h : (set_nonblocking fl false).1 &&& O_NONBLOCK ≠ 0 :=
      (land_O_NONBLOCK_ne_zero _).mpr (hset fl)
    rw [set_nonblocking, if_neg Bool.false_ne_true, if_pos h]
  · intro fl
    exact Or.inl (hset fl)
  · intro fl i hi
    by_cases h : fl &&& O_NONBLOCK ≠ 0
    · simp only [set_nonblocking, if_neg Bool.false_ne_true, if_pos h]
    · simp only [set_nonblocking, if_neg Bool.false_ne_true, if_neg h]
      exact testBit_lor_O_NONBLOCK fl i hi

/-- Witness for C10 at concrete flag words: flags `0o4002`
(`O_NONBLOCK | O_RDWR`) short-circuit; applying the function to plain
`O_RDWR = 2` twice equals applying it once; bit 1 survives. -/
theorem C10_set_nonblocking_witness :
    set_nonblocking 2050 false = (2050, 0, false) ∧
    set_nonblocking (set_nonblocking 2 false).1 false =
      ((set_nonblocking 2 false).1, 0, false) ∧
    ((set_nonblocking 2 false).1).testBit 1 = Nat.testBit 2 1 ∧
    (set_nonblocking 2 false).1 = 2050 :=
  ⟨C10_set_nonblocking_idempotent_frame.1 2050 (by decide),
   C10_set_nonblocking_idempotent_frame.2.1 2,
   C10_set_nonblocking_idempotent_frame.2.2.2 2 1 (by decide),
   by decide⟩

/-! ## `get_remote_addr` / `get_local_addr` (netutil header)

```
inline IPAddr get_remote_addr(int fd, std::error_code &ec) noexcept {
  IPAddr addr;
  struct sockaddr_storage ss;
  socklen_t len = sizeof(ss);
  if (getpeername(fd, (struct sockaddr *)&ss, &len) < -1) {
    ec = std::error_code(errno, std::system_category());
    return addr;
  }
  switch (ss.ss_family) {
  case AF_INET:  addr = IPAddr((struct sockaddr_in *)&ss); break;
  case AF_INET6: addr = IPAddr((struct sockaddr_in6 *)&ss); break;
  default: ec = std::error_code(EINVAL, std::system_category()); break;
  }
  return addr;
}
```

(`get_local_addr` is identical with `getsockname`.)  The syscall outcome
is modelled by `ret` (`0` on success, `-1` on failure) and by `fam`, the
`ss_family` field of the `sockaddr_storage` buffer after the call — on
failure the buffer is uninitialized stack memory, so `fam` is arbitrary
garbage.  `errnoVal` is the current `errno`.  The model returns the error
code stored into `ec` (`none` = `ec` untouched, i.e. success). -/

def AF_INET : Nat := 2

def AF_INET6 : Nat := 10

def EINVAL : Nat := 22

def get_remote_addr (ret : Int) (fam errnoVal : Nat) : Option Nat :=
  if ret < -1 then some errnoVal
  else if fam = AF_INET then none
  else if fam = AF_INET6 then none
  else some EINVAL

def get_local_addr (ret : Int) (fam errnoVal : Nat) : Option Nat :=
  if ret < -1 then some errnoVal
  else if fam = AF_INET then none
  else if fam = AF_INET6 then none
  else some EINVAL

/-- `eventfd_read_cb` (src/relay.cpp:177-193) closes `client_fd` and skips
relay creation exactly when the error code handed back by
`get_remote_addr` / `get_local_addr` is set. -/
def wakeup_aborts_on_addr_error (ec : Option Nat) : Bool := ec.isSome

/-- C7: the address-getters compare the syscall result with `< -1`, but
`getpeername`/`getsockname` return `-1` on failure, so the failure branch
is unreachable: with `ret = -1` and garbage family `AF_INET` (or
`AF_INET6`) no error code is produced and the wakeup handler does not
close `client_fd`; for any garbage family the reported error is never the
syscall's `errno` but at most the fabricated `EINVAL`. -/
theorem C7_getaddr_failure_undetected :
    get_remote_addr (-1) AF_INET 107 = none ∧
    get_local_addr (-1) AF_INET 22 = none ∧
    get_remote_addr (-1) AF_INET6 107 = none ∧
    wakeup_aborts_on_addr_error (get_remote_addr (-1) AF_INET 107) = false ∧
    (∀ fam e, get_remote_addr (-1) fam e = none ∨
      get_remote_addr (-1) fam e = some EINVAL) ∧
    (∀ fam e, get_local_addr (-1) fam e = none ∨
      get_local_addr (-1) fam e = some EINVAL) := by
  refine ⟨rfl, rfl, rfl, rfl, ?_, ?_⟩ <;>
  · intro fam e
    simp only [get_remote_addr, get_local_addr, if_neg (by omega : ¬((-1 : Int) < -1))]
    by_cases h2 : fam = AF_INET
    · rw [if_pos h2]; exact Or.inl rfl
    · rw [if_neg h2]
      by_cases h3 : fam = AF_INET6
      · rw [if_pos h3]; exact Or.inl rfl
      · rw [if_neg h3]; exact Or.inr rfl

/-! ## Address text: parsing (src/main.cpp) and formatting (netutil header)

Models of the libc routines the source calls, then the source functions
themselves.  `IPAddr` is a tagged `sockaddr` union: family, address bytes,
port.  A `v4` value carries the four octets of `sin_addr` in memory order
and the (host byte order) port; a `v6` value carries the eight 16-bit
groups of `sin6_addr`. -/

inductive IPAddrM where
  | unspec
  | v4 (a b c d : Nat) (port : Nat)
  | v6 (groups : List Nat) (port : Nat)
  deriving Repr, DecidableEq

/-- `IPAddr::port()`: `ntohs` of the port field for `AF_INET`/`AF_INET6`,
`0` for any other family. -/
def IPAddrM.port : IPAddrM → Nat
  | .unspec => 0
  | .v4 _ _ _ _ p => p
  | .v6 _ p => p

/-- One decimal digit as a character (`'0' + n`). -/
def decDigitChar (n : Nat) : Char := Char.ofNat (48 + n)

/-- Fuelled decimal printer (fuel `n + 1` always suffices since `n / 10`
shrinks). -/
def decCharsAux : Nat → Nat → List Char
  | 0, _ => []
  | fuel + 1, g =>
      if g < 10 then [decDigitChar g]
      else decCharsAux fuel (g / 10) ++ [decDigitChar (g % 10)]

/-- Decimal digits of `n`, as printed by `snprintf("%d")`. -/
def natChars (n : Nat) : List Char := decCharsAux (n + 1) n

/-- `std::isdigit` (ASCII). -/
def isdigitChar (c : Char) : Bool := decide ('0' ≤ c) && decide (c ≤ '9')

/-- `inet_ntop(AF_INET)`: dotted decimal. -/
def format_ip_v4 (a b c d : Nat) : List Char :=
  natChars a ++ '.' :: natChars b ++ '.' :: natChars c ++ '.' :: natChars d

/-- `format_addr_v4` (part_001:406-411): `snprintf("%s:%d", ip, port)`.
Here the source is correct: `format_ip_v4` receives the `in_addr_t` BY
VALUE, so the `&addr` it passes to `inet_ntop` is the address bytes. -/
def format_addr_v4 (a b c d port : Nat) : List Char :=
  format_ip_v4 a b c d ++ ':' :: natChars port

/-- Length of the zero-group run starting at the head. -/
def runLen : List Nat → Nat
  | [] => 0
  | g :: t => if g = 0 then runLen t + 1 else 0

/-- Longest (leftmost on ties) run of at least two zero groups:
`(start index, length)`. -/
def bestRun : List Nat → Nat → Option (Nat × Nat)
  | [], _ => none
  | g :: t, i =>
      let here := runLen (g :: t)
      match bestRun t (i + 1) with
      | none => if 2 ≤ here then some (i, here) else none
      | some (j, lj) =>
          if 2 ≤ here && lj ≤ here then some (i, here) else some (j, lj)

/-- One lowercase hex digit as a character. -/
def hexDigitAsChar (n : Nat) : Char :=
  if n < 10 then Char.ofNat (48 + n) else Char.ofNat (87 + n)

/-- Fuelled hex printer. -/
def hexCharsAux : Nat → Nat → List Char
  | 0, _ => []
  | fuel + 1, g =>
      if g < 16 then [hexDigitAsChar g]
      else hexCharsAux fuel (g / 16) ++ [hexDigitAsChar (g % 16)]

/-- Lowercase hex digits of a 16-bit group (`printf("%x")`). -/
def hexChars (g : Nat) : List Char := hexCharsAux (g + 1) g

def joinGroups : List (List Char) → List Char
  | [] => []
  | [g] => g
  | g :: t => g ++ ':' :: joinGroups t

/-- The text `inet_ntop(AF_INET6)` produces for 8 given 16-bit groups:
lowercase hex groups separated by colons, the longest (leftmost on ties)
run of two or more zero groups compressed to `::`.  glibc additionally
prints a dotted-decimal tail when the best run starts at group 0 and spans
5 groups (with group 5 = `0xffff`) or 6 groups; that form is not modelled.
The theorems below apply this function only to byte sequences that start
with a non-null pointer value (at least one of the first four groups
non-zero), for which glibc never takes the dotted-tail branch either, so
within that scope the two facts relied on — the output contains only hex
digits and colons, and it is exactly `"::"` only for all-zero input — hold
of the real function as well. -/
def inet_ntop6_text (gs : List Nat) : List Char :=
  match bestRun gs 0 with
  | none => joinGroups (gs.map hexChars)
  | some (i, l) =>
      joinGroups ((gs.take i).map hexChars) ++
        ':' :: ':' :: joinGroups ((gs.drop (i + l)).map hexChars)

/-- `format_ip_v6` (part_001:413-417):

```
inline std::string format_ip_v6(const struct in6_addr *addr) {
  char ip[INET6_ADDRSTRLEN];
  ::inet_ntop(AF_INET6, &addr, ip, sizeof(ip));
  return ip;
}
```

Unlike `format_ip_v4`, here `addr` is already a pointer, so `&addr` hands
`inet_ntop` the address of the POINTER VARIABLE: the 16 bytes rendered are
the 8 bytes of the pointer value followed by 8 adjacent stack bytes, never
the pointed-to `in6_addr`.  `strayGroups` carries those 16 stray bytes as
8 big-endian 16-bit groups (the first four are the pointer's bytes, so for
a non-null pointer at least one of them is non-zero); the actual address
`gs` is ignored, exactly as in the source. -/
def format_ip_v6 (strayGroups : List Nat) (gs : List Nat) : List Char :=
  inet_ntop6_text strayGroups

/-- `format_addr_v6` (part_001:419-424): `snprintf("[%s]:%d", ip, port)`
with `ip` the stray-byte text produced by `format_ip_v6`. -/
def format_addr_v6 (strayGroups : List Nat) (gs : List Nat) (port : Nat) :
    List Char :=
  '[' :: format_ip_v6 strayGroups gs ++ ']' :: ':' :: natChars port

/-- `IPAddr::format()`: v4/v6 as above, `""` for any other family.
`strayGroups` is the stray memory `format_ip_v6` renders when the address
is v6 (unused for v4). -/
def IPAddrM.format (strayGroups : List Nat) : IPAddrM → List Char
  | .unspec => []
  | .v4 a b c d p => format_addr_v4 a b c d p
  | .v6 gs p => format_addr_v6 strayGroups gs p

/-- `haystack.find(pat) != npos` — `pat` occurs as a contiguous substring
(`std::string::find`; the empty pattern is found at position 0). -/
def containsSub (pat : List Char) : List Char → Bool
  | [] => pat.isEmpty
  | c :: t => pat.isPrefixOf (c :: t) || containsSub pat t

/-- `RelayIPAddrTuple`: `{listen, src, dst}`. -/
structure RelayIPAddrTuple where
  listen : IPAddrM
  src : IPAddrM
  dst : IPAddrM
  deriving Repr, DecidableEq

inductive TupleError where
  | portZero
  | wildcardV4Text
  | wildcardV6Text
  deriving Repr, DecidableEq

/-- `check_addr_tuple_valid` (src/main.cpp:108-120): for each tuple in
order, throw if `dst.port() == 0`, else if `dst.format()` contains
`"0.0.0.0"`, else if it contains `"[::]"`.  Returns the first error.
`strayOf t` gives the 8 stray groups `format_ip_v6` renders when `t.dst`
is a v6 address (each formatted `IPAddr` object has its own address, so
the stray pointer bytes may differ per tuple). -/
def check_addr_tuple_valid (strayOf : RelayIPAddrTuple → List Nat) :
    List RelayIPAddrTuple → Option TupleError
  | [] => none
  | t :: ts =>
      if t.dst.port = 0 then some .portZero
      else if containsSub ("0.0.0.0".toList) (t.dst.format (strayOf t)) then
        some .wildcardV4Text
      else if containsSub ("[::]".toList) (t.dst.format (strayOf t)) then
        some .wildcardV6Text
      else check_addr_tuple_valid strayOf ts

/-- The claim's notion of a wildcard destination (spec wording: the dst
address is `0.0.0.0` or `[::]`): the all-zero address of either family. -/
def isWildcardDst : IPAddrM → Bool
  | .unspec => false
  | .v4 a b c d _ => decide (a = 0) && decide (b = 0) && decide (c = 0) && decide (d = 0)
  | .v6 gs _ => gs.all (fun g => decide (g = 0))

/-! ### Parsing: `std::stoi`, `inet_pton`, `parse_iptext_port`,
`must_parse_addr` -/

/-- Shared digit accumulator. -/
def decVal (l : List Char) : Nat :=
  l.foldl (fun acc c => acc * 10 + (c.toNat - 48)) 0

/-- Model of `std::stoi`: an optional sign followed by a nonempty run of
leading decimal digits; `.error` stands for the `std::invalid_argument`
(no digits) and `std::out_of_range` (outside `int`) exceptions.  (The
leading-whitespace skip of the real function is not modelled; no caller
passes whitespace.) -/
def stoiCore (sign : Int) (l : List Char) : Except Unit Int :=
  let ds := l.takeWhile isdigitChar
  if ds.isEmpty then .error ()
  else
    let v : Int := sign * (decVal ds : Nat)
    if v < -2147483648 ∨ 2147483647 < v then .error ()
    else .ok v

def stoi (s : String) : Except Unit Int :=
  match s.toList with
  | '-' :: t => stoiCore (-1) t
  | '+' :: t => stoiCore 1 t
  | t => stoiCore 1 t

/-- Split on a separator, keeping empty pieces (so `"a..b"` splits into
`["a", "", "b"]`). -/
def splitOnChar (sep : Char) : List Char → List (List Char)
  | [] => [[]]
  | c :: t =>
      if c = sep then [] :: splitOnChar sep t
      else
        match splitOnChar sep t with
        | [] => [[c]]
        | h :: r => (c :: h) :: r

/-- One dotted-quad part for `inet_pton(AF_INET)`: 1-3 decimal digits,
no leading zero (except `"0"` itself), value at most 255. -/
def pton4Part : List Char → Option Nat
  | [] => none
  | c :: t =>
      if !(c :: t).all isdigitChar then none
      else if c = '0' ∧ t ≠ [] then none
      else if 3 < (c :: t).length then none
      else if decVal (c :: t) ≤ 255 then some (decVal (c :: t)) else none

/-- Model of `inet_pton(AF_INET, s)`: exactly four dot-separated parts.
Returns the four octets; `none` models the real function's `0` return
(malformed text). -/
def inet_pton4 (s : String) : Option (Nat × Nat × Nat × Nat) :=
  match splitOnChar '.' s.toList with
  | [p1, p2, p3, p4] => do
      let a ← pton4Part p1
      let b ← pton4Part p2
      let c ← pton4Part p3
      let d ← pton4Part p4
      pure (a, b, c, d)
  | _ => none

def isHexDigitChar (c : Char) : Bool :=
  isdigitChar c || (decide ('a' ≤ c) && decide (c ≤ 'f')) ||
    (decide ('A' ≤ c) && decide (c ≤ 'F'))

def hexDigitVal (c : Char) : Nat :=
  if isdigitChar c then c.toNat - 48
  else if decide ('a' ≤ c) && decide (c ≤ 'f') then c.toNat - 87
  else c.toNat - 55

/-- One 16-bit group for `inet_pton(AF_INET6)`: 1-4 hex digits. -/
def pton6Group : List Char → Option Nat
  | [] => none
  | c :: t =>
      if (c :: t).all isHexDigitChar && (c :: t).length ≤ 4 then
        some ((c :: t).foldl (fun acc ch => acc * 16 + hexDigitVal ch) 0)
      else none

/-- Split at the first `"::"`, if any. -/
def splitDoubleColon : List Char → Option (List Char × List Char)
  | [] => none
  | ':' :: ':' :: t => some ([], t)
  | c :: t => (splitDoubleColon t).map (fun p => (c :: p.1, p.2))

/-- Model of `inet_pton(AF_INET6, s)`: colon-separated 16-bit hex groups,
eight of them, or fewer with one `"::"` expanding to the missing zero
groups.  Any character outside hex digits and colons (for instance `[`)
makes the text invalid; `none` models the real function's `0` return.
(The embedded dotted-decimal IPv4 tail the real function also accepts is
not modelled; no theorem depends on it.) -/
def inet_pton6 (s : String) : Option (List Nat) :=
  let l := s.toList
  match splitDoubleColon l with
  | none =>
      let parts := splitOnChar ':' l
      if parts.length = 8 then parts.mapM pton6Group else none
  | some (pre, post) =>
      if (splitDoubleColon post).isSome then none
      else
        let preParts := if pre.isEmpty then [] else splitOnChar ':' pre
        let postParts := if post.isEmpty then [] else splitOnChar ':' post
        match preParts.mapM pton6Group, postParts.mapM pton6Group with
        | some gs1, some gs2 =>
            if gs1.length + gs2.length < 8 then
              some (gs1 ++ List.replicate (8 - gs1.length - gs2.length) 0 ++ gs2)
            else none
        | _, _ => none

/-- First character of the text that is `'.'` or `':'` — the loop of
`parse_iptext_port` dispatches the family on it. -/
def firstDotColon : List Char → Option Char
  | [] => none
  | c :: t => if c = '.' ∨ c = ':' then some c else firstDotColon t

/-- `parse_iptext_port` (netutil header, `noexcept` overload): returns the
built `IPAddr` and whether `ec` was set.  The source checks
`inet_pton(...) < 0`, but `inet_pton` returns `0` (not negative) for
malformed text, so in that case no error is recorded and the `IPAddr` is
built from the `sockaddr_in`/`in6` whose address field was never written —
uninitialized stack memory, modelled by `junk4`/`junk6`.  Only when the
text contains neither `'.'` nor `':'` is `ec` set (`EINVAL`). -/
def parse_iptext_port_ec (junk4 : Nat × Nat × Nat × Nat) (junk6 : List Nat)
    (iptext : String) (port : Nat) : IPAddrM × Bool :=
  match firstDotColon iptext.toList with
  | some '.' =>
      match inet_pton4 iptext with
      | some (a, b, c, d) => (.v4 a b c d port, false)
      | none => (.v4 junk4.1 junk4.2.1 junk4.2.2.1 junk4.2.2.2 port, false)
  | some ':' =>
      match inet_pton6 iptext with
      | some gs => (.v6 gs port, false)
      | none => (.v6 junk6 port, false)
  | _ => (.unspec, true)

/-- Throwing overload of `parse_iptext_port`: throws (`.error`) when the
`noexcept` overload set `ec`. -/
def parse_iptext_port (junk4 : Nat × Nat × Nat × Nat) (junk6 : List Nat)
    (iptext : String) (port : Nat) : Except Unit IPAddrM :=
  let r := parse_iptext_port_ec junk4 junk6 iptext port
  if r.2 then .error () else .ok r.1

/-- `std::string::find_last_of(':')`. -/
def findLastColon : List Char → Option Nat
  | [] => none
  | c :: t =>
      match findLastColon t with
      | some i => some (i + 1)
      | none => if c = ':' then some 0 else none

/-- `must_parse_addr` (src/main.cpp:50-74):

```
std::string::size_type n = addr_text.find_last_of(':');
if (n == std::string::npos) {
  if (!std::all_of(addr_text.begin(), addr_text.end(), isdigit))
    return parse_iptext_port(addr_text, 0);
  int port = std::stoi(addr_text);
  if (port >= 0 && port <= 65536)
    return parse_iptext_port("0.0.0.0", uint16_t(port));
  else
    return IPAddr();
}
std::string ip_part = addr_text.substr(0, n);
std::string port_part = addr_text.substr(n + 1);
int port = std::stoi(port_part);
if (port < 0)
  return IPAddr();
return parse_iptext_port(ip_part, uint16_t(port));
```

`uint16_t(port)` truncates to 16 bits (`% 65536`); `.error` models an
escaping exception (from `stoi` or from `parse_iptext_port`). -/
def must_parse_addr (junk4 : Nat × Nat × Nat × Nat) (junk6 : List Nat)
    (addr_text : String) : Except Unit IPAddrM :=
  match findLastColon addr_text.toList with
  | none =>
      if !(addr_text.toList.all isdigitChar) then
        parse_iptext_port junk4 junk6 addr_text 0
      else
        match stoi addr_text with
        | .error e => .error e
        | .ok port =>
            if 0 ≤ port ∧ port ≤ 65536 then
              parse_iptext_port junk4 junk6 "0.0.0.0" (port.toNat % 65536)
            else .ok .unspec
  | some n =>
      let ip_part : String := ⟨addr_text.toList.take n⟩
      let port_part : String := ⟨addr_text.toList.drop (n + 1)⟩
      match stoi port_part with
      | .error e => .error e
      | .ok port =>
          if port < 0 then .ok .unspec
          else parse_iptext_port junk4 junk6 ip_part (port.toNat % 65536)

/-! ### Claim theorems for validation and parsing -/

theorem isPrefixOf_append (p r : List Char) : p.isPrefixOf (p ++ r) = true := by
  induction p with
  | nil => simp [List.isPrefixOf]
  | cons c t ih => simp [List.isPrefixOf, ih]

theorem containsSub_append (p r : List Char) : containsSub p (p ++ r) = true := by
  cases p with
  | nil =>
    cases r with
    | nil => rfl
    | cons c t => simp [containsSub, List.isPrefixOf]
  | cons c t => simp [containsSub, isPrefixOf_append]

/-! #### Character-level facts about the formatted texts -/

theorem decCharsAux_digits (fuel : Nat) :
    ∀ g c, c ∈ decCharsAux fuel g → isdigitChar c = true := by
  induction fuel with
  | zero => intro g c hc; cases hc
  | succ fuel ih =>
    intro g c hc
    have hd : ∀ n, n < 10 → isdigitChar (decDigitChar n) = true := by decide
    simp only [decCharsAux] at hc
    split at hc
    · simp only [List.mem_singleton] at hc
      subst hc
      exact hd g (by omega)
    · rcases List.mem_append.mp hc with h | h
      · exact ih _ _ h
      · simp only [List.mem_singleton] at h
        subst h
        exact hd _ (by omega)

theorem natChars_digits (p : Nat) (c : Char) (hc : c ∈ natChars p) :
    isdigitChar c = true :=
  decCharsAux_digits _ _ _ hc

/-- Characters the hex printer can emit: `0-9a-f`. -/
def isHexTextChar (c : Char) : Bool :=
  isdigitChar c || (decide ('a' ≤ c) && decide (c ≤ 'f'))

theorem hexCharsAux_hex (fuel : Nat) :
    ∀ g c, c ∈ hexCharsAux fuel g → isHexTextChar c = true := by
  induction fuel with
  | zero => intro g c hc; cases hc
  | succ fuel ih =>
    intro g c hc
    have hd : ∀ n, n < 16 → isHexTextChar (hexDigitAsChar n) = true := by decide
    simp only [hexCharsAux] at hc
    split at hc
    · simp only [List.mem_singleton] at hc
      subst hc
      exact hd g (by omega)
    · rcases List.mem_append.mp hc with h | h
      · exact ih _ _ h
      · simp only [List.mem_singleton] at h
        subst h
        exact hd _ (by omega)

theorem hexChars_ne_nil (g : Nat) : hexChars g ≠ [] := by
  unfold hexChars hexCharsAux
  split <;> simp

/-- Characters `inet_ntop(AF_INET6)` can emit: hex digits and colons. -/
def v6TextChar (c : Char) : Bool := isHexTextChar c || decide (c = ':')

theorem joinGroups_chars (ls : List (List Char)) (c : Char)
    (hc : c ∈ joinGroups ls) : c = ':' ∨ ∃ l ∈ ls, c ∈ l := by
  induction ls with
  | nil => cases hc
  | cons g t ih =>
    cases t with
    | nil => exact Or.inr ⟨g, by simp, hc⟩
    | cons g2 t2 =>
      simp only [joinGroups] at hc
      rcases List.mem_append.mp hc with h | h
      · exact Or.inr ⟨g, by simp, h⟩
      · rcases List.mem_cons.mp h with h | h
        · exact Or.inl h
        · rcases ih h with h' | ⟨l, hl, hcl⟩
          · exact Or.inl h'
          · exact Or.inr ⟨l, List.mem_cons_of_mem _ hl, hcl⟩

theorem inet_ntop6_text_chars (gs : List Nat) (c : Char)
    (hc : c ∈ inet_ntop6_text gs) : v6TextChar c = true := by
  have hmap : ∀ l : List Nat, c ∈ joinGroups (l.map hexChars) →
      v6TextChar c = true := by
    intro l hm
    rcases joinGroups_chars _ _ hm with h | ⟨gchars, hg, hcg⟩
    · subst h; decide
    · rcases List.mem_map.mp hg with ⟨g, _, rfl⟩
      have := hexCharsAux_hex _ _ _ hcg
      simp [v6TextChar, this]
  simp only [inet_ntop6_text] at hc
  split at hc
  · exact hmap _ hc
  · rcases List.mem_append.mp hc with h | h
    · exact hmap _ h
    · rcases List.mem_cons.mp h with h | h
      · subst h; decide
      · rcases List.mem_cons.mp h with h | h
        · subst h; decide
        · exact hmap _ h

theorem mem_of_isPrefixOf (p : List Char) :
    ∀ l, p.isPrefixOf l = true → ∀ c ∈ p, c ∈ l := by
  induction p with
  | nil => intro l _ c hc; cases hc
  | cons x t ih =>
    intro l h c hc
    cases l with
    | nil => simp [List.isPrefixOf] at h
    | cons y m =>
      simp only [List.isPrefixOf, Bool.and_eq_true, beq_iff_eq] at h
      rcases List.mem_cons.mp hc with rfl | hc
      · rw [h.1]; exact List.mem_cons_self y m
      · exact List.mem_cons_of_mem _ (ih m h.2 c hc)

theorem mem_of_containsSub (p : List Char) :
    ∀ hay, containsSub p hay = true → ∀ c ∈ p, c ∈ hay := by
  intro hay
  induction hay with
  | nil =>
    intro h c hc
    have hp : p = [] := by simpa [containsSub] using h
    subst hp; cases hc
  | cons x t ih =>
    intro h c hc
    simp only [containsSub, Bool.or_eq_true] at h
    rcases h with h | h
    · exact mem_of_isPrefixOf _ _ h c hc
    · exact List.mem_cons_of_mem _ (ih h c hc)

theorem runLen_spec (gs : List Nat) : ∀ g ∈ gs.take (runLen gs), g = 0 := by
  induction gs with
  | nil => intro g hg; cases hg
  | cons x t ih =>
    intro g hg
    by_cases hx : x = 0
    · simp only [runLen, if_pos hx, List.take_succ_cons] at hg
      rcases List.mem_cons.mp hg with rfl | hg
      · exact hx
      · exact ih g hg
    · simp only [runLen, if_neg hx, List.take_zero] at hg
      cases hg

theorem bestRun_spec (gs : List Nat) : ∀ i0 j l, bestRun gs i0 = some (j, l) →
    i0 ≤ j ∧ l ≤ runLen (gs.drop (j - i0)) := by
  induction gs with
  | nil => intro i0 j l h; cases h
  | cons g t ih =>
    intro i0 j l h
    cases hr : bestRun t (i0 + 1) with
    | none =>
      simp only [bestRun, hr] at h
      split at h
      · simp only [Option.some.injEq, Prod.mk.injEq] at h
        obtain ⟨rfl, rfl⟩ := h
        simp
      · cases h
    | some jl =>
      obtain ⟨j1, l1⟩ := jl
      simp only [bestRun, hr] at h
      split at h
      · simp only [Option.some.injEq, Prod.mk.injEq] at h
        obtain ⟨rfl, rfl⟩ := h
        simp
      · simp only [Option.some.injEq, Prod.mk.injEq] at h
        obtain ⟨rfl, rfl⟩ := h
        obtain ⟨hij, hlr⟩ := ih (i0 + 1) j1 l1 hr
        refine ⟨by omega, ?_⟩
        have hd : (g :: t).drop (j1 - i0) = t.drop (j1 - (i0 + 1)) := by
          have h1 : j1 - i0 = (j1 - (i0 + 1)) + 1 := by omega
          rw [h1, List.drop_succ_cons]
        rw [hd]
        exact hlr

/-- The compressed text is exactly `"::"` only for an all-zero input. -/
theorem inet_ntop6_text_eq_dcolon (gs : List Nat)
    (h : inet_ntop6_text gs = [':', ':']) : ∀ g ∈ gs, g = 0 := by
  simp only [inet_ntop6_text] at h
  cases hb : bestRun gs 0 with
  | none =>
    rw [hb] at h
    cases gs with
    | nil => intro g hg; cases hg
    | cons g0 t =>
      exfalso
      cases t with
      | nil =>
        simp only [List.map, joinGroups] at h
        have hm : ':' ∈ hexChars g0 := by rw [h]; simp
        exact absurd (hexCharsAux_hex _ _ _ hm) (by decide)
      | cons g1 t1 =>
        simp only [List.map, joinGroups] at h
        cases hx : hexChars g0 with
        | nil => exact hexChars_ne_nil g0 hx
        | cons c cs =>
          rw [hx, List.cons_append] at h
          have hc : c = ':' := (List.cons.injEq _ _ _ _).mp h |>.1
          have hm : c ∈ hexChars g0 := by rw [hx]; exact List.mem_cons_self c cs
          rw [hc] at hm
          exact absurd (hexCharsAux_hex _ _ _ hm) (by decide)
  | some jl =>
    obtain ⟨i, l⟩ := jl
    rw [hb] at h
    have hlen := congrArg List.length h
    simp only [List.length_append, List.length_cons, List.length_nil] at hlen
    have hA : joinGroups ((gs.take i).map hexChars) = [] :=
      List.length_eq_zero.mp (by omega)
    have hB : joinGroups ((gs.drop (i + l)).map hexChars) = [] :=
      List.length_eq_zero.mp (by omega)
    have hA' : gs.take i = [] := by
      cases htk : gs.take i with
      | nil => rfl
      | cons x xs =>
        exfalso
        rw [htk] at hA
        cases xs with
        | nil => simp only [List.map, joinGroups] at hA; exact hexChars_ne_nil x hA
        | cons y ys =>
          simp only [List.map, joinGroups, List.append_eq_nil] at hA
          cases hA.2
    have hB' : gs.drop (i + l) = [] := by
      cases hdr : gs.drop (i + l) with
      | nil => rfl
      | cons x xs =>
        exfalso
        rw [hdr] at hB
        cases xs with
        | nil => simp only [List.map, joinGroups] at hB; exact hexChars_ne_nil x hB
        | cons y ys =>
          simp only [List.map, joinGroups, List.append_eq_nil] at hB
          cases hB.2
    rcases List.take_eq_nil_iff.mp hA' with hi | hnil
    · subst hi
      obtain ⟨_, hlr⟩ := bestRun_spec gs 0 0 l hb
      have hlen2 : gs.length ≤ l := by
        have := List.drop_eq_nil_iff.mp hB'
        omega
      have hrun : gs.length ≤ runLen gs := by simpa using le_trans hlen2 hlr
      intro g hg
      exact runLen_spec gs g (by rwa [List.take_of_length_le hrun])
    · subst hnil
      intro g hg
      cases hg

/-- A `"[::]"` prefix of the bracketed text forces the ip text to be
exactly `"::"`. -/
theorem brackets_only_for_dcolon (T D : List Char)
    (hT : ∀ c ∈ T, v6TextChar c = true)
    (h : (['[', ':', ':', ']']).isPrefixOf ('[' :: (T ++ ']' :: ':' :: D))
      = true) :
    T = [':', ':'] := by
  cases T with
  | nil =>
    exfalso
    simp [List.isPrefixOf] at h
  | cons c1 T1 =>
    cases T1 with
    | nil =>
      exfalso
      simp [List.isPrefixOf] at h
    | cons c2 T2 =>
      cases T2 with
      | nil =>
        simp only [List.cons_append, List.nil_append, List.isPrefixOf,
          Bool.and_eq_true, beq_iff_eq] at h
        obtain ⟨-, h1, h2, -⟩ := h
        rw [← h1, ← h2]
      | cons c3 T3 =>
        exfalso
        simp only [List.cons_append, List.isPrefixOf, Bool.and_eq_true,
          beq_iff_eq] at h
        obtain ⟨-, -, -, h3, -⟩ := h
        have hm := hT c3 (by simp)
        rw [← h3] at hm
        exact absurd hm (by decide)

/-- Stray bytes a typical non-null stack pointer leaves for
`format_ip_v6`: pointer value `0x00007ffd'1234'5678` (little endian in
memory) followed by eight zero residue bytes, read by `inet_ntop` as
big-endian 16-bit groups. -/
def sampleStray : List Nat := [0x7856, 0x3412, 0xfd7f, 0, 0, 0, 0, 0]

/-- C8 counterexample, refuting both directions of the claimed iff.  The
tuple `{dst = 10.0.0.0:80}` has a fully specified, non-wildcard
destination with non-zero port, yet validation rejects it, because the
check is a substring search for `"0.0.0.0"` in the formatted text
`"10.0.0.0:80"`; and the wildcard tuple `{dst = [::]:80}` is ACCEPTED,
because the v6 text the check inspects renders the stray pointer bytes
(here `"7856:3412:fd7f::"`), never the address, so `"[::]"` does not
occur in it. -/
theorem C8_validation_counterexample :
    check_addr_tuple_valid (fun _ => sampleStray)
        [⟨.unspec, .unspec, .v4 10 0 0 0 80⟩] = some .wildcardV4Text ∧
    (IPAddrM.v4 10 0 0 0 80).port = 80 ∧
    isWildcardDst (.v4 10 0 0 0 80) = false ∧
    check_addr_tuple_valid (fun _ => sampleStray)
        [⟨.unspec, .unspec, .v6 [0, 0, 0, 0, 0, 0, 0, 0] 80⟩] = none ∧
    isWildcardDst (.v6 [0, 0, 0, 0, 0, 0, 0, 0] 80) = true ∧
    (IPAddrM.v6 [0, 0, 0, 0, 0, 0, 0, 0] 80).port = 80 := by
  decide

/-- C8 (amended): tuple validation raises an error if and only if some
tuple's dst has port 0 or its formatted text contains `"0.0.0.0"` or
`"[::]"` as a substring.  Concretely: an IPv4 destination's text is its
real dotted address, so a wildcard `0.0.0.0` dst is always rejected (as
is any dst whose text merely contains `"0.0.0.0"`, such as `10.0.0.0`);
but an IPv6 destination's text renders the stray pointer bytes of
`format_ip_v6`, so — for any non-null pointer, i.e. whenever some of the
first four stray groups is non-zero — a v6 destination, the wildcard
`[::]` included, is never rejected unless its port is 0. -/
theorem C8_validation_rejects_iff :
    (∀ (strayOf : RelayIPAddrTuple → List Nat) (ts : List RelayIPAddrTuple),
      (check_addr_tuple_valid strayOf ts).isSome = true ↔
        ∃ t ∈ ts, t.dst.port = 0 ∨
          containsSub ("0.0.0.0".toList) (t.dst.format (strayOf t)) = true ∨
          containsSub ("[::]".toList) (t.dst.format (strayOf t)) = true) ∧
    (∀ (strayOf : RelayIPAddrTuple → List Nat) (ls ss : IPAddrM) (p : Nat),
      (check_addr_tuple_valid strayOf [⟨ls, ss, .v4 0 0 0 0 p⟩]).isSome
        = true) ∧
    (∀ (strayOf : RelayIPAddrTuple → List Nat) (ls ss : IPAddrM)
        (gs : List Nat) (p : Nat),
      0 < p →
      (∃ g ∈ (strayOf ⟨ls, ss, .v6 gs p⟩).take 4, 0 < g) →
      check_addr_tuple_valid strayOf [⟨ls, ss, .v6 gs p⟩] = none) := by
  refine ⟨?_, ?_, ?_⟩
  · intro strayOf ts
    induction ts with
    | nil => simp [check_addr_tuple_valid]
    | cons t ts ih =>
      simp only [check_addr_tuple_valid, List.mem_cons]
      by_cases h1 : t.dst.port = 0
      · simp [h1]
      · by_cases h2 : containsSub ['0', '.', '0', '.', '0', '.', '0']
            (t.dst.format (strayOf t)) = true
        · simp [h1, h2]
        · by_cases h3 : containsSub ['[', ':', ':', ']']
              (t.dst.format (strayOf t)) = true
          · simp [h1, h2, h3]
          · simp [h1, h2, h3, ih]
  · intro strayOf ls ss p
    by_cases hp : (IPAddrM.v4 0 0 0 0 p).port = 0
    · simp [check_addr_tuple_valid, hp]
    · have h2 : containsSub ['0', '.', '0', '.', '0', '.', '0']
          ((IPAddrM.v4 0 0 0 0 p).format
            (strayOf ⟨ls, ss, .v4 0 0 0 0 p⟩)) = true := by
        have hf : (IPAddrM.v4 0 0 0 0 p).format
              (strayOf ⟨ls, ss, .v4 0 0 0 0 p⟩)
            = ['0', '.', '0', '.', '0', '.', '0'] ++ (':' :: natChars p) := rfl
        rw [hf]
        exact containsSub_append _ _
      simp [check_addr_tuple_valid, hp, h2]
  · intro strayOf ls ss gs p hp hstray
    have hport : ¬(IPAddrM.v6 gs p).port = 0 := by
      simp only [IPAddrM.port]
      omega
    have hfmt : (IPAddrM.v6 gs p).format (strayOf ⟨ls, ss, .v6 gs p⟩)
        = '[' :: (inet_ntop6_text (strayOf ⟨ls, ss, .v6 gs p⟩) ++
            ']' :: ':' :: natChars p) := rfl
    have hdot : ¬containsSub ("0.0.0.0".toList)
        ((IPAddrM.v6 gs p).format (strayOf ⟨ls, ss, .v6 gs p⟩)) = true := by
      intro hcontra
      rw [hfmt] at hcontra
      have hdotmem : '.' ∈ '[' :: (inet_ntop6_text
          (strayOf ⟨ls, ss, .v6 gs p⟩) ++ ']' :: ':' :: natChars p) :=
        mem_of_containsSub _ _ hcontra '.' (by decide)
      rcases List.mem_cons.mp hdotmem with h | h
      · exact absurd h (by decide)
      · rcases List.mem_append.mp h with h | h
        · exact absurd (inet_ntop6_text_chars _ _ h) (by decide)
        · rcases List.mem_cons.mp h with h | h
          · exact absurd h (by decide)
          · rcases List.mem_cons.mp h with h | h
            · exact absurd h (by decide)
            · exact absurd (natChars_digits _ _ h) (by decide)
    have hbr : ¬containsSub ("[::]".toList)
        ((IPAddrM.v6 gs p).format (strayOf ⟨ls, ss, .v6 gs p⟩)) = true := by
      intro hcontra
      rw [hfmt] at hcontra
      simp only [containsSub, Bool.or_eq_true] at hcontra
      rcases hcontra with hpre | hrec
      · have hT := brackets_only_for_dcolon _ _
          (fun c hc => inet_ntop6_text_chars _ c hc) hpre
        have hall := inet_ntop6_text_eq_dcolon _ hT
        obtain ⟨g, hg, hgpos⟩ := hstray
        have : g = 0 := hall g (List.take_subset _ _ hg)
        omega
      · have hbm : '[' ∈ inet_ntop6_text (strayOf ⟨ls, ss, .v6 gs p⟩) ++
            ']' :: ':' :: natChars p :=
          mem_of_containsSub _ _ hrec '[' (by decide)
        rcases List.mem_append.mp hbm with h | h
        · exact absurd (inet_ntop6_text_chars _ _ h) (by decide)
        · rcases List.mem_cons.mp h with h | h
          · exact absurd h (by decide)
          · rcases List.mem_cons.mp h with h | h
            · exact absurd h (by decide)
            · exact absurd (natChars_digits _ _ h) (by decide)
    simp only [check_addr_tuple_valid]
    rw [if_neg hport, if_neg hdot, if_neg hbr]

/-- Witness for C8: the iff applied to a singleton list with a port-0
destination; the always-rejected part at wildcard `0.0.0.0:80`; the
never-rejected part at wildcard `[::]:443` under the sample stray pointer
bytes. -/
theorem C8_validation_rejects_iff_witness :
    (check_addr_tuple_valid (fun _ => sampleStray)
        [⟨.unspec, .unspec, .v4 127 0 0 1 0⟩]).isSome = true ∧
    (check_addr_tuple_valid ( fun _ => sampleStray)
        [⟨.unspec, .unspec, .v4 0 0 0 0 80⟩]).isSome = true ∧
    check_addr_tuple_valid (fun _ => sampleStray)
        [⟨.unspec, .unspec, .v6 [0, 0, 0, 0, 0, 0, 0, 0] 443⟩] = none :=
  ⟨(C8_validation_rejects_iff.1 _ _).mpr
      ⟨⟨.unspec, .unspec, .v4 127 0 0 1 0⟩, by simp, Or.inl rfl⟩,
   C8_validation_rejects_iff.2.1 _ .unspec .unspec 80,
   C8_validation_rejects_iff.2.2 _ .unspec .unspec _ 443 (by omega)
     ⟨0x7856, by decide, by decide⟩⟩


/-- C9: evaluation of `must_parse_addr` on the CLI grammar's forms.  Bare
ports up to 65535 and dotted / `HOST:PORT` forms map to their denoted
endpoints; but `"65536"` is accepted and truncated to `0.0.0.0:0` instead
of failing (the bound check reads `port <= 65536`), and a bracketed IPv6
literal `"[::1]:8080"` is handed to `inet_pton` with its brackets — the
resulting `0` return is not caught by the `< 0` check, so the produced
address is the uninitialized memory `j6`, not `::1` (which the `inet_pton`
model does parse when unbracketed), with no error raised. -/
theorem C9_must_parse_addr_eval :
    (∀ j4 j6, must_parse_addr j4 j6 "80" = .ok (.v4 0 0 0 0 80)) ∧
    (∀ j4 j6, must_parse_addr j4 j6 "65535" = .ok (.v4 0 0 0 0 65535)) ∧
    (∀ j4 j6, must_parse_addr j4 j6 "65536" = .ok (.v4 0 0 0 0 0)) ∧
    (∀ j4 j6, must_parse_addr j4 j6 "70000" = .ok .unspec) ∧
    (∀ j4 j6, must_parse_addr j4 j6 "1.2.3.4" = .ok (.v4 1 2 3 4 0)) ∧
    (∀ j4 j6, must_parse_addr j4 j6 "192.168.1.5:8080"
      = .ok (.v4 192 168 1 5 8080)) ∧
    (∀ j4 j6, must_parse_addr j4 j6 "[::1]:8080" = .ok (.v6 j6 8080)) ∧
    inet_pton6 "::1" = some [0, 0, 0, 0, 0, 0, 0, 1] ∧
    (must_parse_addr (0, 0, 0, 0) [] "[::1]:8080").toOption
      = some (.v6 [] 8080) ∧
    decide ((IPAddrM.v6 [] 8080) = .v6 [0, 0, 0, 0, 0, 0, 0, 1] 8080)
      = false := by
  exact ⟨fun j4 j6 => rfl, fun j4 j6 => rfl, fun j4 j6 => rfl,
    fun j4 j6 => rfl, fun j4 j6 => rfl, fun j4 j6 => rfl,
    fun j4 j6 => rfl, rfl, rfl, by decide⟩

end Mux
